import Mathlib

/-!
Shallow embedding of the reminder-manager core:
`src/Reminder.ts` and `src/RemindersHandler.ts`.

Modelling conventions:
* A JS runtime exception is an `Except.error` carrying a `JsError`; the
  message strings are the ones thrown by the source.
* A 1-based position (a JS `number` used as an index) is an `Int`, so that
  negative and zero positions are expressible.
* A JS out-of-range array read (`arr[i]` yielding `undefined`) is `Option`:
  `jsIndex` returns `none` exactly where the source would read `undefined`.
  Writing a property of `undefined` (`arr[i].x = v`) throws at runtime;
  that fault is `JsError.typeError`.
* The handler's storage field `_reminders : Reminder[]` can be absent at the
  JS level (the getter guards `if (!this._reminders) throw ...`; note `![]`
  is `false`, so only an absent/undefined field triggers it).  The handler
  state therefore carries `Option (List Reminder)`, with `none` the absent
  storage.  The per-method bodies, which operate on the array value itself,
  are embedded as functions on `List Reminder`.
* The fuzzy-string-matching collaborator (`fuzzy-search` npm package) is
  external to the core and opaque per the spec; it is a parameter
  `fuzzy : List String → String → List String` mapping the candidate list
  and the query to the matched subset.  The logging collaborator has no
  effect on data and is omitted.
* The `RemindersGroupingByTag` record object is an ordinary JS object with
  `Object.prototype` on its prototype chain.  Its own properties are kept
  as a creation-ordered association list `List (String × List Reminder)`.
  The source's membership test `reminder.tag in groupings` is the JS `in`
  operator, which consults the whole prototype chain: it is true for the
  inherited `Object.prototype` member names (`protoProps`) even when they
  are not own keys, in which case the read `groupings[tag]` yields the
  inherited member — a function or object with no `push` method — so the
  `push` call throws a runtime `TypeError` (`insertGroup`'s error branch,
  propagated out of `forEach` by `List.foldlM`).  The enumeration order of
  the returned object's keys follows JS own-property order (`jsEnumKeys`):
  array-index keys (`isArrayIndex`: canonical decimal strings below
  2^32 - 1) first in ascending numeric order, then the remaining string
  keys in creation order.
-/

/-- The error kinds of the source, per the spec's taxonomy (§7). -/
inductive JsError where
  | validationError (msg : String)
  | indexError (msg : String)
  | emptyStateError (msg : String)
  | typeError
deriving DecidableEq, Repr

/-- `class Reminder`: description, tag, completion flag. -/
structure Reminder where
  description : String
  tag : String
  isCompleted : Bool
deriving DecidableEq, Repr

/-- `constructor(description, tag)`: stores both and sets `_isCompleted = false`.
No validation is performed at construction. -/
def Reminder.new (description tag : String) : Reminder :=
  { description := description, tag := tag, isCompleted := false }

/-- `set description(description)`: throws on a falsy (empty) string, else
replaces the description.  (A TS `string` is falsy exactly when empty.) -/
def Reminder.setDescription (r : Reminder) (description : String) :
    Except JsError Reminder :=
  if description = "" then
    .error (.validationError "Do not input an empty description")
  else .ok { r with description := description }

/-- `set tag(tag)`: throws on a falsy (empty) string, else replaces the tag. -/
def Reminder.setTag (r : Reminder) (tag : String) : Except JsError Reminder :=
  if tag = "" then .error (.validationError "Do not input an empty tag")
  else .ok { r with tag := tag }

/-- `toggleCompletion()`: `false → true`, `true → false` (the source's
two-branch `if`). -/
def Reminder.toggleCompletion (r : Reminder) : Reminder :=
  if !r.isCompleted then { r with isCompleted := true }
  else { r with isCompleted := false }

/-- JS array read `l[i]`: `undefined` (`none`) for `i < 0` or `i ≥ length`. -/
def jsIndex (l : List Reminder) (i : Int) : Option Reminder :=
  if i < 0 then none else l.get? i.toNat

/-- `size()`: `this._reminders.length`. -/
def size (l : List Reminder) : Nat := l.length

/-- `isIndexValid(index)`: the source's two checks, verbatim:
`size() === 0`, then `index < 0 || index + 1 > size()`. -/
def isIndexValid (l : List Reminder) (index : Int) : Bool :=
  if size l = 0 then false
  else if index < 0 || index + 1 > (size l : Int) then false
  else true

/-- `addReminder(description, tag)`: `push` of a freshly constructed
`Reminder` onto the storage array. -/
def addReminder (l : List Reminder) (description tag : String) : List Reminder :=
  l ++ [Reminder.new description tag]

/-- `getReminder(index)`: throws `IndexError` when `isIndexValid` is false,
else returns `this._reminders[index-1]` (which is the JS `undefined`,
i.e. `none`, if that read is out of range). -/
def getReminder (l : List Reminder) (index : Int) :
    Except JsError (Option Reminder) :=
  if ¬ isIndexValid l index then .error (.indexError "This index is not valid")
  else .ok (jsIndex l (index - 1))

/-- `modifyReminder(index, description)`: no bounds check;
`this._reminders[index-1].description = description`.  Reading `undefined`
and then setting a property on it is a runtime `TypeError`; otherwise the
description setter runs (and may itself throw `ValidationError`). -/
def modifyReminder (l : List Reminder) (index : Int) (description : String) :
    Except JsError (List Reminder) :=
  match jsIndex l (index - 1) with
  | none => .error .typeError
  | some r => (r.setDescription description).map fun r' =>
      l.set (index - 1).toNat r'

/-- `toggleCompletion(index)` (handler method): no bounds check;
`this._reminders[index-1].toggleCompletion()`; calling a method of
`undefined` is a runtime `TypeError`. -/
def toggleCompletion (l : List Reminder) (index : Int) :
    Except JsError (List Reminder) :=
  match jsIndex l (index - 1) with
  | none => .error .typeError
  | some r => .ok (l.set (index - 1).toNat r.toggleCompletion)

/-- `searchTags(keyword)`: filter by case-insensitive tag equality. -/
def searchTags (l : List Reminder) (keyword : String) : List Reminder :=
  l.filter fun r => r.tag.toLower == keyword.toLower

/-- `searchDescriptions(keyword)`: collect the descriptions, hand them with
the keyword to the fuzzy collaborator, then filter the reminder list by
membership of the description in the collaborator's result. -/
def searchDescriptions (fuzzy : List String → String → List String)
    (l : List Reminder) (keyword : String) : List Reminder :=
  let reminderDesc := l.map fun r => r.description
  let result := fuzzy reminderDesc keyword
  l.filter fun r => result.contains r.description

/-- `search(keyword)`: tag results; if there are none, description results. -/
def search (fuzzy : List String → String → List String)
    (l : List Reminder) (keyword : String) : List Reminder :=
  let tagResults := searchTags l keyword
  if tagResults.length = 0 then searchDescriptions fuzzy l keyword
  else tagResults

/-- The property names of `Object.prototype`, inherited by every plain
object literal: the JS `in` operator reports all of them as present. -/
def protoProps : List String :=
  ["constructor", "hasOwnProperty", "isPrototypeOf", "propertyIsEnumerable",
   "toLocaleString", "toString", "valueOf", "__defineGetter__",
   "__defineSetter__", "__lookupGetter__", "__lookupSetter__", "__proto__"]

/-- `groupings[t].push(r)` when `t` is an own key: append the reminder to
the (unique) own group for `t`; on an absent key this creates the group at
the end (that case only arises below when `t` is no own key and no
inherited name, where it models the assignment `groupings[t] = [r]`). -/
def pushGroup (gs : List (String × List Reminder)) (t : String)
    (r : Reminder) : List (String × List Reminder) :=
  match gs with
  | [] => [(t, [r])]
  | (t', rs) :: rest =>
    if t' = t then (t', rs ++ [r]) :: rest
    else (t', rs) :: pushGroup rest t r

/-- One step of `groupByTag`'s `forEach` body.  `reminder.tag in groupings`
is true when the tag is an own key or one of the inherited
`Object.prototype` names; in the latter case `groupings[tag]` resolves to
the inherited member, which has no `push` method, and the call throws a
runtime `TypeError`.  When `in` is false, `groupings[tag] = [reminder]`
creates a new own property. -/
def insertGroup (gs : List (String × List Reminder)) (t : String)
    (r : Reminder) : Except JsError (List (String × List Reminder)) :=
  if t ∈ gs.map Prod.fst ∨ t ∈ protoProps then
    if t ∈ gs.map Prod.fst then .ok (pushGroup gs t r)
    else .error .typeError
  else .ok (gs ++ [(t, [r])])

/-- `groupByTag()`: fold the `forEach` body over the reminders, starting
from the empty record; an exception thrown by the body propagates out of
`forEach` immediately. -/
def groupByTag (l : List Reminder) :
    Except JsError (List (String × List Reminder)) :=
  l.foldlM (fun groupings r => insertGroup groupings r.tag r) []

/-- Own-property read of the record (`groupings[t]`, with `none` the JS
`undefined`).  For any key outside `protoProps` this is exactly the JS
read; a read of an inherited `Object.prototype` name that is no own key
would instead yield the inherited member, which is why the grouping
theorem below applies `lookupTag` only to keys outside `protoProps`. -/
def lookupTag (t : String) : List (String × List Reminder) → Option (List Reminder)
  | [] => none
  | (t', rs) :: rest => if t' = t then some rs else lookupTag t rest

/-- Numeric value of a list of decimal digit characters, `none` on any
non-digit. -/
def digitsValAux : List Char → Nat → Option Nat
  | [], acc => some acc
  | c :: cs, acc =>
    if '0' ≤ c ∧ c ≤ '9' then digitsValAux cs (acc * 10 + (c.toNat - '0'.toNat))
    else none

/-- Decimal value of a non-empty all-digit string, else `none`. -/
def strDigitsVal? (s : String) : Option Nat :=
  match s.data with
  | [] => none
  | cs => digitsValAux cs 0

/-- JS array-index property key: the canonical decimal representation of an
integer below `2^32 - 1` (so `"2"` is one; `"01"`, `"work"`, `""` and
`"4294967295"` are not). -/
def isArrayIndex (s : String) : Bool :=
  match strDigitsVal? s with
  | some n => decide (n < 4294967295) && (Nat.repr n == s)
  | none => false

/-- Insert an array-index key into a list sorted ascending by numeric
value. -/
def insertSortedIdx (k : String) : List String → List String
  | [] => [k]
  | k' :: ks =>
    if (strDigitsVal? k).getD 0 ≤ (strDigitsVal? k').getD 0 then k :: k' :: ks
    else k' :: insertSortedIdx k ks

/-- Sort array-index keys ascending by numeric value. -/
def sortIndices : List String → List String
  | [] => []
  | k :: ks => insertSortedIdx k (sortIndices ks)

/-- JS own-property enumeration order of the record's keys: array-index
keys first, ascending numerically, then the remaining string keys in
creation order. -/
def jsEnumKeys (gs : List (String × List Reminder)) : List String :=
  sortIndices ((gs.map Prod.fst).filter isArrayIndex) ++
    (gs.map Prod.fst).filter fun k => !isArrayIndex k

/-- First-occurrence deduplication (the enumeration order of the record's
keys: each key appears once, at the position of its first occurrence). -/
def keysFirstAux (seen : List String) : List String → List String
  | [] => []
  | t :: ts =>
    if t ∈ seen then keysFirstAux seen ts
    else t :: keysFirstAux (t :: seen) ts

/-- Deduplicate a list of tags keeping first occurrences in order. -/
def dedupFirst (ts : List String) : List String := keysFirstAux [] ts

/-- `class RemindersHandler`: the storage field, possibly absent at the JS
level (`none`). -/
structure RemindersHandler where
  _reminders : Option (List Reminder)
deriving DecidableEq, Repr

/-- `constructor()`: `this._reminders = []`. -/
def RemindersHandler.new : RemindersHandler := ⟨some []⟩

/-- `get reminders()`: throws `EmptyStateError` when the storage field is
absent (only then: `![]` is `false` in JS), else returns the stored list. -/
def RemindersHandler.remindersGet (h : RemindersHandler) :
    Except JsError (List Reminder) :=
  match h._reminders with
  | none => .error (.emptyStateError "You have no reminders")
  | some l => .ok l

/-- The public state-evolving operations of the handler. -/
inductive Op where
  | add (description tag : String)
  | modify (index : Int) (description : String)
  | toggle (index : Int)
deriving DecidableEq, Repr

/-- State after running one public operation: on an absent storage field
every method faults before mutating, and a method that throws
(`TypeError` from an out-of-range write, `ValidationError` from the
setter) throws before any mutation, leaving the state unchanged. -/
def RemindersHandler.applyOp (h : RemindersHandler) (op : Op) :
    RemindersHandler :=
  match h._reminders with
  | none => h
  | some l =>
    match op with
    | .add d t => ⟨some (addReminder l d t)⟩
    | .modify i d => ⟨some ((modifyReminder l i d).toOption.getD l)⟩
    | .toggle i => ⟨some ((toggleCompletion l i).toOption.getD l)⟩

/-- `search` as a method: the outcome (never a throw once the storage
field is present: neither filter stage can fail) paired with the handler
state after the call, which — the body containing no write to
`this._reminders` and no call to any `Reminder` setter — is the state
before the call. -/
def RemindersHandler.searchM (fuzzy : List String → String → List String)
    (h : RemindersHandler) (keyword : String) :
    Except JsError (List Reminder) × RemindersHandler :=
  match h._reminders with
  | none => (.error .typeError, h)
  | some l => (.ok (search fuzzy l keyword), h)

/-- `groupByTag` as a method: the outcome (which can be the prototype
collision `TypeError` from `insertGroup`) paired with the handler state
after the call; the body performs no write, also on the throwing path, so
that state is the state before the call. -/
def RemindersHandler.groupByTagM (h : RemindersHandler) :
    Except JsError (List (String × List Reminder)) × RemindersHandler :=
  match h._reminders with
  | none => (.error .typeError, h)
  | some l => (groupByTag l, h)

/-! ## Theorems -/

/-- C1: the claim fails on the code.  `isIndexValid` tests
`index < 0 || index + 1 > size()`, i.e. the 0-based range `[0, size()-1]`,
not the 1-based range `[1, size()]` required by the claim: on a singleton
collection position `1` is reported invalid while position `0` is reported
valid, contradicting both directions of the claimed equivalence. -/
theorem isIndexValid_off_by_one :
    size [Reminder.new "buy milk" "shopping"] = 1 ∧
    isIndexValid [Reminder.new "buy milk" "shopping"] 1 = false ∧
    isIndexValid [Reminder.new "buy milk" "shopping"] 0 = true := by
  refine ⟨rfl, ?_, ?_⟩ <;> rfl

/-- C2: the claim fails on the code.  `addReminder` does grow the collection
by one, but the new reminder is not retrievable at position `size()`:
after adding to an empty collection, `getReminder(1)` throws the
IndexError because the off-by-one `isIndexValid` rejects position `1`. -/
theorem addReminder_not_retrievable_at_size :
    size (addReminder [] "buy milk" "shopping") = 1 ∧
    getReminder (addReminder [] "buy milk" "shopping") 1 =
      .error (.indexError "This index is not valid") := by
  exact ⟨rfl, rfl⟩

/-- C4: the claim fails on the code.  On a non-empty collection
`isIndexValid 0` is `true` (off-by-one), so `getReminder 0` does not raise
IndexError; but the read `this._reminders[-1]` is out of range and yields
the JS `undefined` (`none`) rather than a stored reminder, contradicting
"otherwise returns the reminder stored at 0-based offset p-1". -/
theorem getReminder_returns_undefined_at_zero :
    isIndexValid [Reminder.new "buy milk" "shopping"] 0 = true ∧
    getReminder [Reminder.new "buy milk" "shopping"] 0 = .ok none := by
  exact ⟨rfl, rfl⟩

/-- C8: the claim fails on the code in both directions, through the same
off-by-one in `isIndexValid`.  On a two-element collection: position `0`
satisfies `isIndexValid` yet `modifyReminder`/`toggleCompletion` fault with
the raw TypeError (write through `undefined` at offset `-1`); position `2`
fails `isIndexValid` yet both operations succeed on the reminder at offset
`1`.  The "no bounds check of their own" part is visible in both: the fault
and the success are decided by the raw offset `p-1`, not by `isIndexValid`. -/
theorem mutators_unchecked_but_disagree_with_isIndexValid :
    (isIndexValid [Reminder.new "d1" "t1", Reminder.new "d2" "t2"] 0 = true ∧
      modifyReminder [Reminder.new "d1" "t1", Reminder.new "d2" "t2"] 0 "x" =
        .error .typeError ∧
      toggleCompletion [Reminder.new "d1" "t1", Reminder.new "d2" "t2"] 0 =
        .error .typeError) ∧
    (isIndexValid [Reminder.new "d1" "t1", Reminder.new "d2" "t2"] 2 = false ∧
      modifyReminder [Reminder.new "d1" "t1", Reminder.new "d2" "t2"] 2 "x" =
        .ok [Reminder.new "d1" "t1", Reminder.new "x" "t2"] ∧
      toggleCompletion [Reminder.new "d1" "t1", Reminder.new "d2" "t2"] 2 =
        .ok [Reminder.new "d1" "t1", ⟨"d2", "t2", true⟩]) := by
  exact ⟨⟨rfl, rfl, rfl⟩, ⟨rfl, rfl, rfl⟩⟩

/-- C3: `search` returns exactly the case-insensitive tag matches whenever
at least one exists, and only when there are zero tag matches does it
return the description-stage result, namely the reminders whose
description is in the fuzzy collaborator's output. -/
theorem search_two_stage (fuzzy : List String → String → List String)
    (l : List Reminder) (k : String) :
    search fuzzy l k =
      if l.filter (fun r => r.tag.toLower == k.toLower) = [] then
        l.filter fun r =>
          (fuzzy (l.map fun r => r.description) k).contains r.description
      else l.filter fun r => r.tag.toLower == k.toLower := by
  by_cases h : l.filter (fun r => r.tag.toLower == k.toLower) = [] <;>
    simp [search, searchTags, searchDescriptions, List.length_eq_zero, h]

/-- C7: `setDescription`/`setTag` with the empty string raise the
ValidationError and return no updated record (the caller's record is
untouched); with any non-empty value they succeed, the updated record
differs only in the targeted field, and the corresponding getter
immediately returns the new value. -/
theorem reminder_setters (r : Reminder) (d : String) (h : d ≠ "") :
    r.setDescription "" =
      .error (.validationError "Do not input an empty description") ∧
    r.setTag "" = .error (.validationError "Do not input an empty tag") ∧
    r.setDescription d = .ok { r with description := d } ∧
    r.setTag d = .ok { r with tag := d } ∧
    ({ r with description := d } : Reminder).description = d ∧
    ({ r with description := d } : Reminder).tag = r.tag ∧
    ({ r with description := d } : Reminder).isCompleted = r.isCompleted ∧
    ({ r with tag := d } : Reminder).tag = d ∧
    ({ r with tag := d } : Reminder).description = r.description ∧
    ({ r with tag := d } : Reminder).isCompleted = r.isCompleted := by
  refine ⟨?_, ?_, ?_, ?_, rfl, rfl, rfl, rfl, rfl, rfl⟩ <;>
    simp [Reminder.setDescription, Reminder.setTag, h]

/-- Witness for the setter theorem at a concrete reminder and value. -/
theorem reminder_setters_witness :
    (Reminder.new "a" "b").setDescription "x" = .ok (Reminder.new "x" "b") ∧
    (Reminder.new "a" "b").setDescription "" =
      .error (.validationError "Do not input an empty description") := by
  have h := reminder_setters (Reminder.new "a" "b") "x" (by decide)
  exact ⟨h.2.2.1, h.1⟩

/-- C10: the query methods `search` and `groupByTag` do not change the
collection: on any handler state with storage `l`, the post-call state is
the pre-call state — for `groupByTag` on both outcomes, the returned
grouping and the prototype-collision `TypeError` alike, since its body
performs no write before or after the point of the throw — so the
reminder sequence and every reminder's description, tag, and completion
flag are unaltered. -/
theorem queries_leave_state_unchanged (l : List Reminder) (k : String)
    (fuzzy : List String → String → List String) :
    RemindersHandler.searchM fuzzy ⟨some l⟩ k =
      (.ok (search fuzzy l k), ⟨some l⟩) ∧
    RemindersHandler.groupByTagM ⟨some l⟩ = (groupByTag l, ⟨some l⟩) ∧
    (RemindersHandler.groupByTagM ⟨some l⟩).2 = ⟨some l⟩ := by
  exact ⟨rfl, rfl, rfl⟩

/-! ### Helper lemmas for the grouping and search order results -/

theorem search_eq (fuzzy : List String → String → List String)
    (l : List Reminder) (k : String) :
    search fuzzy l k =
      if (searchTags l k).length = 0 then searchDescriptions fuzzy l k
      else searchTags l k := rfl

theorem searchDescriptions_eq (fuzzy : List String → String → List String)
    (l : List Reminder) (k : String) :
    searchDescriptions fuzzy l k =
      l.filter fun r =>
        (fuzzy (l.map fun r => r.description) k).contains r.description := rfl

theorem lookupTag_pushGroup_self (gs : List (String × List Reminder))
    (t : String) (r : Reminder) :
    lookupTag t (pushGroup gs t r) =
      some ((lookupTag t gs).getD [] ++ [r]) := by
  induction gs with
  | nil => simp [pushGroup, lookupTag]
  | cons p rest ih =>
    obtain ⟨t', rs⟩ := p
    by_cases h : t' = t
    · simp [pushGroup, lookupTag, h]
    · simp [pushGroup, lookupTag, h, ih]

theorem lookupTag_pushGroup_ne (gs : List (String × List Reminder))
    (t t' : String) (r : Reminder) (h : t' ≠ t) :
    lookupTag t' (pushGroup gs t r) = lookupTag t' gs := by
  induction gs with
  | nil => simp [pushGroup, lookupTag, Ne.symm h]
  | cons p rest ih =>
    obtain ⟨t'', rs⟩ := p
    by_cases h2 : t'' = t
    · have h3 : t'' ≠ t' := by rw [h2]; exact Ne.symm h
      simp [pushGroup, lookupTag, h2, h3, Ne.symm h]
    · simp [pushGroup, lookupTag, h2, ih]

theorem lookupTag_pushGroup_none (gs : List (String × List Reminder))
    (t t' : String) (r : Reminder) :
    lookupTag t' (pushGroup gs t r) = none ↔
      lookupTag t' gs = none ∧ t' ≠ t := by
  by_cases h : t' = t
  · subst h
    simp [lookupTag_pushGroup_self]
  · simp [lookupTag_pushGroup_ne gs t t' r h, h]

theorem fold_lookup_getD (l : List Reminder) :
    ∀ (gs : List (String × List Reminder)) (t : String),
    (lookupTag t (l.foldl (fun gs r => pushGroup gs r.tag r) gs)).getD [] =
      (lookupTag t gs).getD [] ++ l.filter (fun r => r.tag == t) := by
  induction l with
  | nil => intro gs t; simp
  | cons r l ih =>
    intro gs t
    simp only [List.foldl_cons]
    rw [ih]
    by_cases h : r.tag = t
    · subst h
      rw [lookupTag_pushGroup_self]
      simp [List.filter_cons]
    · rw [lookupTag_pushGroup_ne gs r.tag t r (Ne.symm h)]
      simp [List.filter_cons, h]

theorem fold_lookup_none (l : List Reminder) :
    ∀ (gs : List (String × List Reminder)) (t : String),
    lookupTag t (l.foldl (fun gs r => pushGroup gs r.tag r) gs) = none ↔
      lookupTag t gs = none ∧ ∀ r ∈ l, r.tag ≠ t := by
  induction l with
  | nil => intro gs t; simp
  | cons r l ih =>
    intro gs t
    simp only [List.foldl_cons]
    rw [ih, lookupTag_pushGroup_none]
    constructor
    · rintro ⟨⟨h1, h2⟩, h3⟩
      refine ⟨h1, ?_⟩
      rw [List.forall_mem_cons]
      exact ⟨Ne.symm h2, h3⟩
    · rintro ⟨h1, h2⟩
      rw [List.forall_mem_cons] at h2
      exact ⟨⟨h1, Ne.symm h2.1⟩, h2.2⟩

theorem pushGroup_keys (gs : List (String × List Reminder)) (t : String)
    (r : Reminder) :
    (pushGroup gs t r).map Prod.fst =
      if t ∈ gs.map Prod.fst then gs.map Prod.fst
      else gs.map Prod.fst ++ [t] := by
  induction gs with
  | nil => simp [pushGroup]
  | cons p rest ih =>
    obtain ⟨t', rs⟩ := p
    by_cases h : t' = t
    · subst h
      simp [pushGroup]
    · by_cases hm : t ∈ rest.map Prod.fst
      · simp [pushGroup, h, ih, hm, Ne.symm h]
      · simp [pushGroup, h, ih, hm, Ne.symm h]

theorem keysFirstAux_congr (ts : List String) :
    ∀ s1 s2, (∀ x, x ∈ s1 ↔ x ∈ s2) →
    keysFirstAux s1 ts = keysFirstAux s2 ts := by
  induction ts with
  | nil => intro s1 s2 _; simp [keysFirstAux]
  | cons t ts ih =>
    intro s1 s2 hs
    by_cases h : t ∈ s1
    · have h2 : t ∈ s2 := (hs t).1 h
      simp only [keysFirstAux, if_pos h, if_pos h2]
      exact ih s1 s2 hs
    · have h2 : t ∉ s2 := fun c => h ((hs t).2 c)
      simp only [keysFirstAux, if_neg h, if_neg h2]
      exact congrArg (t :: ·)
        (ih (t :: s1) (t :: s2) fun x => by simp [List.mem_cons, hs x])

theorem fold_keys (l : List Reminder) :
    ∀ (gs : List (String × List Reminder)),
    (l.foldl (fun gs r => pushGroup gs r.tag r) gs).map Prod.fst =
      gs.map Prod.fst ++
        keysFirstAux (gs.map Prod.fst) (l.map Reminder.tag) := by
  induction l with
  | nil => intro gs; simp [keysFirstAux]
  | cons r l ih =>
    intro gs
    simp only [List.foldl_cons, List.map_cons]
    rw [ih]
    by_cases h : r.tag ∈ gs.map Prod.fst
    · rw [pushGroup_keys, if_pos h]
      simp only [keysFirstAux, if_pos h]
    · rw [pushGroup_keys, if_neg h]
      simp only [keysFirstAux, if_neg h]
      have hmem : ∀ x, x ∈ gs.map Prod.fst ++ [r.tag] ↔
          x ∈ r.tag :: gs.map Prod.fst := by
        intro x
        simp [or_comm]
      rw [keysFirstAux_congr (l.map Reminder.tag) _ _ hmem]
      simp

theorem pushGroup_not_mem (gs : List (String × List Reminder)) (t : String)
    (r : Reminder) (h : t ∉ gs.map Prod.fst) :
    pushGroup gs t r = gs ++ [(t, [r])] := by
  induction gs with
  | nil => simp [pushGroup]
  | cons p rest ih =>
    obtain ⟨t', rs⟩ := p
    simp only [List.map_cons, List.mem_cons] at h
    push_neg at h
    simp [pushGroup, Ne.symm h.1, ih h.2]

theorem insertGroup_ok (gs : List (String × List Reminder)) (t : String)
    (r : Reminder) (hp : t ∉ protoProps) :
    insertGroup gs t r = .ok (pushGroup gs t r) := by
  by_cases h : t ∈ gs.map Prod.fst
  · simp [insertGroup, h]
  · simp [insertGroup, h, hp, pushGroup_not_mem gs t r h]

theorem groupByTag_fold_ok (l : List Reminder) :
    ∀ gs, (∀ r ∈ l, r.tag ∉ protoProps) →
    List.foldlM (fun gs r => insertGroup gs r.tag r) gs l =
      .ok (List.foldl (fun gs r => pushGroup gs r.tag r) gs l) := by
  induction l with
  | nil => intro gs _; rfl
  | cons r l ih =>
    intro gs hp
    rw [List.forall_mem_cons] at hp
    simp only [List.foldlM_cons, List.foldl_cons,
      insertGroup_ok gs r.tag r hp.1]
    rw [← ih (pushGroup gs r.tag r) hp.2]
    rfl

theorem mem_keysFirstAux (ts : List String) :
    ∀ seen x, x ∈ keysFirstAux seen ts → x ∈ ts := by
  induction ts with
  | nil =>
    intro seen x hx
    simp [keysFirstAux] at hx
  | cons t ts ih =>
    intro seen x hx
    by_cases h : t ∈ seen
    · simp only [keysFirstAux, if_pos h] at hx
      exact List.mem_cons_of_mem t (ih seen x hx)
    · simp only [keysFirstAux, if_neg h] at hx
      rcases List.mem_cons.mp hx with e | e
      · exact List.mem_cons.mpr (Or.inl e)
      · exact List.mem_cons_of_mem t (ih (t :: seen) x e)

/-- C5 (amended): for every collection none of whose tags names an
inherited `Object.prototype` member, `groupByTag` succeeds and maps each
tag, under case-sensitive string equality, to exactly the reminders
carrying that tag in insertion order; keys outside the collection (and
outside the inherited names, whose reads see the inherited member rather
than an own property) are absent; own keys are created in the order their
first member was encountered; and when additionally no tag is an
array-index string, the object's key enumeration order is that same
first-occurrence order. -/
theorem groupByTag_spec (l : List Reminder)
    (hp : ∀ r ∈ l, r.tag ∉ protoProps) :
    ∃ gs, groupByTag l = .ok gs ∧
      (∀ t, t ∈ l.map Reminder.tag →
        lookupTag t gs = some (l.filter fun r => r.tag == t)) ∧
      (∀ t, t ∉ l.map Reminder.tag → t ∉ protoProps →
        lookupTag t gs = none) ∧
      gs.map Prod.fst = dedupFirst (l.map Reminder.tag) ∧
      ((∀ r ∈ l, isArrayIndex r.tag = false) →
        jsEnumKeys gs = dedupFirst (l.map Reminder.tag)) := by
  have hkeys : (List.foldl (fun gs r => pushGroup gs r.tag r) [] l).map
      Prod.fst = dedupFirst (l.map Reminder.tag) := by
    rw [fold_keys l []]
    simp [dedupFirst]
  refine ⟨List.foldl (fun gs r => pushGroup gs r.tag r) [] l, ?_, ?_, ?_,
    hkeys, ?_⟩
  · simp only [groupByTag]
    exact groupByTag_fold_ok l [] hp
  · intro t ht
    cases hl : lookupTag t (List.foldl (fun gs r => pushGroup gs r.tag r) [] l) with
    | none =>
      rcases (fold_lookup_none l [] t).mp hl with ⟨-, h2⟩
      obtain ⟨r, hr, he⟩ := List.mem_map.mp ht
      exact absurd he (h2 r hr)
    | some v =>
      have hg := fold_lookup_getD l [] t
      rw [hl] at hg
      simp only [lookupTag, Option.getD_some, Option.getD_none,
        List.nil_append] at hg
      rw [hg]
  · intro t ht _
    rw [fold_lookup_none]
    refine ⟨rfl, ?_⟩
    intro r hr he
    exact ht (List.mem_map.mpr ⟨r, hr, he⟩)
  · intro hidx
    have hsub : ∀ x ∈ dedupFirst (l.map Reminder.tag),
        isArrayIndex x = false := by
      intro x hx
      simp only [dedupFirst] at hx
      obtain ⟨r, hr, he⟩ :=
        List.mem_map.mp (mem_keysFirstAux (l.map Reminder.tag) [] x hx)
      exact he ▸ hidx r hr
    simp only [jsEnumKeys, hkeys]
    have h1 : (dedupFirst (l.map Reminder.tag)).filter isArrayIndex = [] := by
      rw [List.filter_eq_nil_iff]
      intro a ha
      simp [hsub a ha]
    have h2 : (dedupFirst (l.map Reminder.tag)).filter
        (fun k => !isArrayIndex k) = dedupFirst (l.map Reminder.tag) := by
      rw [List.filter_eq_self]
      intro a ha
      simp [hsub a ha]
    rw [h1, h2]
    rfl

/-- Witness: the spec's own example — tags "Work", "work", "Home" (and a
second "Work"), none an inherited name and none an array index — gives
three case-sensitively distinct groups, each holding exactly its members
in insertion order, enumerated in first-occurrence order. -/
theorem groupByTag_spec_witness :
    ∃ gs,
      groupByTag [Reminder.new "d1" "Work", Reminder.new "d2" "work",
        Reminder.new "d3" "Home", Reminder.new "d4" "Work"] = .ok gs ∧
      lookupTag "Work" gs =
        some [Reminder.new "d1" "Work", Reminder.new "d4" "Work"] ∧
      jsEnumKeys gs = ["Work", "work", "Home"] := by
  obtain ⟨gs, h1, h2, h3, h4, h5⟩ :=
    groupByTag_spec [Reminder.new "d1" "Work", Reminder.new "d2" "work",
      Reminder.new "d3" "Home", Reminder.new "d4" "Work"] (by decide)
  refine ⟨gs, h1, ?_, ?_⟩
  · rw [h2 "Work" (by decide)]
    rfl
  · rw [h5 (by decide)]
    rfl

/-- C5, original statement, refuted at two concrete inputs.  A reminder
tagged "toString" hits the inherited `Object.prototype.toString` through
the `in` test, so `groupByTag` throws TypeError instead of producing a
mapping.  Tags "2" then "1" are array-index keys, which JS enumerates in
ascending numeric order: the groups are created in first-occurrence order
"2", "1" but enumerate as "1", "2" — not the order their first members
were encountered. -/
theorem groupByTag_claim_counterexample :
    groupByTag [Reminder.new "d1" "toString"] = .error .typeError ∧
    groupByTag [Reminder.new "d1" "2", Reminder.new "d2" "1"] =
      .ok [("2", [Reminder.new "d1" "2"]), ("1", [Reminder.new "d2" "1"])] ∧
    jsEnumKeys [("2", [Reminder.new "d1" "2"]),
      ("1", [Reminder.new "d2" "1"])] = ["1", "2"] := by
  exact ⟨rfl, rfl, rfl⟩

/-- C6: both search stages preserve the original collection order.  The tag
stage and the description stage are filters of the stored list, so every
result is a sublist (order-preserving subsequence) of the collection; the
description stage filters the core's own ordered list by membership of the
description in the collaborator's result; and any two collaborators whose
results contain the same strings yield the same description-stage result,
so the collaborator's internal ordering is irrelevant. -/
theorem search_preserves_order (fuzzy : List String → String → List String)
    (l : List Reminder) (k : String) :
    (searchTags l k).Sublist l ∧
    (searchDescriptions fuzzy l k).Sublist l ∧
    (search fuzzy l k).Sublist l ∧
    searchDescriptions fuzzy l k =
      (l.filter fun r =>
        (fuzzy (l.map fun r => r.description) k).contains r.description) ∧
    ∀ g : List String → String → List String,
      (∀ ds q s, (fuzzy ds q).contains s = (g ds q).contains s) →
      searchDescriptions fuzzy l k = searchDescriptions g l k := by
  refine ⟨List.filter_sublist l, List.filter_sublist l, ?_, rfl, ?_⟩
  · rw [search_eq]
    split
    · exact List.filter_sublist l
    · exact List.filter_sublist l
  · intro g hg
    rw [searchDescriptions_eq, searchDescriptions_eq]
    exact List.filter_congr fun r _ => hg _ _ _

/-- Witness for the order-preservation theorem at a concrete collection,
keyword, and collaborator (with the membership-agreement hypothesis
discharged by reflexivity). -/
theorem search_preserves_order_witness :
    (search (fun _ _ => []) [Reminder.new "a" "b"] "c").Sublist
      [Reminder.new "a" "b"] ∧
    searchDescriptions (fun _ _ => []) [Reminder.new "a" "b"] "c" =
      searchDescriptions (fun _ _ => []) [Reminder.new "a" "b"] "c" := by
  have h := search_preserves_order (fun _ _ => []) [Reminder.new "a" "b"] "c"
  exact ⟨h.2.2.1, h.2.2.2.2 (fun _ _ => []) fun _ _ _ => rfl⟩

theorem applyOp_isSome (h : RemindersHandler) (op : Op)
    (hs : h._reminders.isSome) : ((h.applyOp op)._reminders).isSome := by
  obtain ⟨o⟩ := h
  cases o with
  | none => simp at hs
  | some l => cases op <;> rfl

/-- C9: starting from the constructor and evolving only through the public
operations, the storage field is always present, so the `EmptyStateError`
branch of the `reminders` getter is unreachable: the getter always returns
the stored ordered sequence — in particular the empty list, not an error,
on the freshly constructed handler. -/
theorem reminders_getter_never_empty_state (ops : List Op) :
    RemindersHandler.remindersGet RemindersHandler.new = .ok [] ∧
    ∃ l, (ops.foldl RemindersHandler.applyOp RemindersHandler.new)._reminders
        = some l ∧
      RemindersHandler.remindersGet
        (ops.foldl RemindersHandler.applyOp RemindersHandler.new) = .ok l := by
  refine ⟨rfl, ?_⟩
  have key : ∀ (ops : List Op) (h : RemindersHandler), h._reminders.isSome →
      ((ops.foldl RemindersHandler.applyOp h)._reminders).isSome := by
    intro ops
    induction ops with
    | nil => intro h hs; exact hs
    | cons op ops ih =>
      intro h hs
      exact ih _ (applyOp_isSome h op hs)
  have hs := key ops RemindersHandler.new rfl
  obtain ⟨l, hl⟩ := Option.isSome_iff_exists.mp hs
  refine ⟨l, hl, ?_⟩
  simp [RemindersHandler.remindersGet, hl]
